import Mathlib

/-!
Shallow embedding of `src/prob_prior_neigh.cpp` (Bayesian raster smoothing
kernel) and verification of its specification.

Modelling conventions:
* An IEEE double is modelled by `D`: either the missing sentinel `D.nan`
  (not-a-number) or a finite real `D.val x`.  Infinities are collapsed into
  `D.nan`; division by zero and the logit transform outside `(0, 10000)` are
  idealised (Mathlib's total `Real.log` and `x / 0 = 0` junk values), which
  only matters at singular inputs none of the claims depend on.
* `Rcpp::NumericMatrix` / `IntegerMatrix` become `Mat D` / `Mat ℤ`:
  dimensions plus a total lookup function (out-of-bounds entries are junk
  the code never reads).
* `Rcpp::NumericVector neigh` is a `List ℝ`: every element pushed by
  `build_neigh` passed the `!isnan` test, hence is a finite real.
* The Rcpp sugar `mean` is sum/length and `var` is the unbiased sample
  variance (sum of squared deviations over `n - 1`); both are computed in
  double (`D`) arithmetic so that the degenerate `0/0` cases surface as NaN
  exactly as they do in the C++.
-/

namespace Sits

/-- A double: NaN (the missing sentinel) or a finite real. -/
inductive D where
  | nan : D
  | val : ℝ → D
deriving Inhabited

/-- Addition on doubles: NaN propagates. -/
noncomputable def dAdd : D → D → D
  | D.val a, D.val b => D.val (a + b)
  | _, _ => D.nan

/-- Multiplication on doubles: NaN propagates. -/
noncomputable def dMul : D → D → D
  | D.val a, D.val b => D.val (a * b)
  | _, _ => D.nan

/-- Division on doubles: NaN propagates, and division by zero gives NaN
(the collapse of IEEE ±inf and NaN into one non-finite marker). -/
noncomputable def dDiv : D → D → D
  | D.val a, D.val b => if b = 0 then D.nan else D.val (a / b)
  | _, _ => D.nan

/-- A matrix: dimensions plus a total lookup function. -/
structure Mat (α : Type) where
  nrow : ℕ
  ncol : ℕ
  get : ℕ → ℕ → α

/-- Embedding of `build_neigh`: scan the window row-major (outer loop `k`
over window rows, inner loop `l` over window columns), and push
`data(data_i, data_j) * window(k, l)` whenever the target coordinate is
in bounds, the weight is strictly positive and the data value is not NaN. -/
def build_neigh (data : Mat D) (window : Mat ℤ) (i j : ℕ) : List ℝ :=
  (List.range window.nrow).flatMap fun (k : ℕ) =>
    (List.range window.ncol).filterMap fun (l : ℕ) =>
      let data_i : ℤ := (i : ℤ) + (k : ℤ) - ((window.nrow / 2 : ℕ) : ℤ)
      let data_j : ℤ := (j : ℤ) + (l : ℤ) - ((window.ncol / 2 : ℕ) : ℤ)
      if 0 ≤ data_i ∧ 0 ≤ data_j ∧
          data_i < (data.nrow : ℤ) ∧ data_j < (data.ncol : ℤ) ∧
          0 < window.get k l then
        match data.get data_i.toNat data_j.toNat with
        | D.nan => none
        | D.val x => some (x * (window.get k l : ℝ))
      else none

/-- Rcpp sugar `mean`: sum over length, in double arithmetic
(`0/0 = NaN` on the empty vector). -/
noncomputable def dMean (xs : List ℝ) : D :=
  dDiv (D.val xs.sum) (D.val (xs.length : ℝ))

/-- Rcpp sugar `var`: unbiased sample variance, sum of squared deviations
from the mean over `length - 1`, in double arithmetic (`0/0 = NaN` on a
one-element vector). -/
noncomputable def dVar (xs : List ℝ) : D :=
  dDiv (D.val ((xs.map fun x => (x - xs.sum / (xs.length : ℝ)) ^ 2).sum))
       (D.val ((xs.length : ℝ) - 1))

/-- Embedding of `bayes_estimator_pixel`: NaN short-circuit, element-wise
logit of the neighbours, logit of the centre, inverse-variance blend. -/
noncomputable def bayes_estimator_pixel (p : D) (neigh : List ℝ)
    (variance : ℝ) : D :=
  match p with
  | D.nan => D.nan
  | D.val pv =>
      let log_neigh : List ℝ := neigh.map fun n => Real.log (n / (10000 - n))
      let x : ℝ := Real.log (pv / (10000 - pv))
      let v : D := dVar log_neigh
      let w1 : D := dDiv v (dAdd (D.val variance) v)
      let w2 : D := dDiv (D.val variance) (dAdd (D.val variance) v)
      dAdd (dMul w1 (D.val x)) (dMul w2 (dMean log_neigh))

/-- Embedding of `bayes_estimator_class`: row-major pass over every cell,
flat output of length `nrow * ncol`. -/
noncomputable def bayes_estimator_class (data : Mat D) (window : Mat ℤ)
    (variance : ℝ) : List D :=
  (List.range data.nrow).flatMap fun i =>
    (List.range data.ncol).map fun j =>
      bayes_estimator_pixel (data.get i j) (build_neigh data window i j)
        variance

/-- The logit-like transform exactly as the spec words it:
`logit(n) = ln(n / (10000 - n))`. -/
noncomputable def spec_logit (n : ℝ) : ℝ := Real.log (n / (10000 - n))

/-- The mean of a sequence as the spec words it. -/
noncomputable def spec_mean (L : List ℝ) : ℝ := L.sum / (L.length : ℝ)

/-- Unbiased sample variance as the spec words it: sum of squared
deviations from the mean, divided by `count - 1`. -/
noncomputable def spec_sample_var (L : List ℝ) : ℝ :=
  (L.map fun l => (l - spec_mean L) ^ 2).sum / ((L.length : ℝ) - 1)

/-- A 1-by-1 raster holding only the missing sentinel. -/
def nanRaster : Mat D := ⟨1, 1, fun _ _ => D.nan⟩

/-- A 1-by-1 all-ones window. -/
def oneWindow : Mat ℤ := ⟨1, 1, fun _ _ => 1⟩

/-- A 1-by-1 raster holding the value 5000. -/
def constRaster : Mat D := ⟨1, 1, fun _ _ => D.val 5000⟩

/-- The same observable raster as `constRaster` with different junk outside
its bounds. -/
def constRasterJunk : Mat D :=
  ⟨1, 1, fun i j => if i = 0 ∧ j = 0 then D.val 5000 else D.val 7⟩

/-- The 3-by-3 scenario raster: all cells 5000 except the missing sentinel
at (1,1). -/
def raster3 : Mat D :=
  ⟨3, 3, fun i j => if i = 1 ∧ j = 1 then D.nan else D.val 5000⟩

/-- The full 3-by-3 all-ones window. -/
def fullWindow3 : Mat ℤ := ⟨3, 3, fun _ _ => 1⟩

/-- A window with every weight multiplied by a constant `c`. -/
def scaleWindow (c : ℤ) (w : Mat ℤ) : Mat ℤ :=
  ⟨w.nrow, w.ncol, fun k l => c * w.get k l⟩

/-- A 2-by-1 raster of 2500s. -/
def raster2 : Mat D := ⟨2, 1, fun _ _ => D.val 2500⟩

/-- A 3-by-1 all-ones window. -/
def colWindow3 : Mat ℤ := ⟨3, 1, fun _ _ => 1⟩

/-- Characterisation of `build_neigh` membership: a real `x` is gathered
exactly when some window position `(k, l)` maps to an in-bounds, positively
weighted, non-missing raster cell whose weighted value is `x`. -/
theorem mem_build_neigh (data : Mat D) (window : Mat ℤ) (i j : ℕ) (x : ℝ) :
    x ∈ build_neigh data window i j ↔
      ∃ k, k < window.nrow ∧ ∃ l, l < window.ncol ∧
        ((0:ℤ) ≤ (i:ℤ) + (k:ℤ) - ((window.nrow / 2 : ℕ):ℤ) ∧
         (0:ℤ) ≤ (j:ℤ) + (l:ℤ) - ((window.ncol / 2 : ℕ):ℤ) ∧
         (i:ℤ) + (k:ℤ) - ((window.nrow / 2 : ℕ):ℤ) < (data.nrow:ℤ) ∧
         (j:ℤ) + (l:ℤ) - ((window.ncol / 2 : ℕ):ℤ) < (data.ncol:ℤ) ∧
         0 < window.get k l) ∧
        ∃ r : ℝ,
          data.get ((i:ℤ) + (k:ℤ) - ((window.nrow / 2 : ℕ):ℤ)).toNat
                   ((j:ℤ) + (l:ℤ) - ((window.ncol / 2 : ℕ):ℤ)).toNat = D.val r ∧
          x = r * (window.get k l : ℝ) := by
  unfold build_neigh
  simp only [List.mem_flatMap, List.mem_range, List.mem_filterMap]
  constructor
  · rintro ⟨k, hk, l, hl, hsome⟩
    refine ⟨k, hk, l, hl, ?_⟩
    split at hsome
    · rename_i hc
      cases hd : data.get ((i:ℤ) + (k:ℤ) - ((window.nrow / 2 : ℕ):ℤ)).toNat
          ((j:ℤ) + (l:ℤ) - ((window.ncol / 2 : ℕ):ℤ)).toNat with
      | nan => rw [hd] at hsome; simp at hsome
      | val r =>
          rw [hd] at hsome
          simp only [Option.some.injEq] at hsome
          exact ⟨hc, r, rfl, hsome.symm⟩
    · simp at hsome
  · rintro ⟨k, hk, l, hl, hc, r, hget, rfl⟩
    exact ⟨k, hk, l, hl, by rw [if_pos hc, hget]⟩

/-- A row-major flattening of an `n × m` grid of values has length `n * m`. -/
theorem flat_length (n m : ℕ) {α : Type} (f : ℕ → ℕ → α) :
    ((List.range n).flatMap fun a => (List.range m).map (f a)).length = n * m := by
  simp [List.length_flatMap, List.map_map, Function.comp_def, mul_comm]

/-- Indexing a row-major flattening: flat index `i * m + j` holds `f i j`. -/
theorem flat_getElem {α : Type} (n m : ℕ) (f : ℕ → ℕ → α) (i j : ℕ)
    (hi : i < n) (hj : j < m) :
    ((List.range n).flatMap fun a => (List.range m).map (f a))[i * m + j]? =
      some (f i j) := by
  induction n with
  | zero => omega
  | succ n ih =>
    rw [List.range_succ, List.flatMap_append]
    rcases Nat.lt_or_ge i n with h | h
    · rw [List.getElem?_append, if_pos (by rw [flat_length]; nlinarith), ih h]
    · have hin : i = n := by omega
      subst hin
      rw [List.getElem?_append, if_neg (by rw [flat_length]; omega), flat_length]
      simp [List.getElem?_map, List.getElem?_range hj]

/-- The output list has length `nrow * ncol`. -/
theorem bayes_estimator_class_length (data : Mat D) (window : Mat ℤ)
    (variance : ℝ) :
    (bayes_estimator_class data window variance).length =
      data.nrow * data.ncol := by
  unfold bayes_estimator_class
  exact flat_length _ _ _

/-- The output at flat index `i * ncol + j` is the pixel estimate of cell
`(i, j)` on its gathered neighbourhood. -/
theorem bayes_estimator_class_getElem (data : Mat D) (window : Mat ℤ)
    (variance : ℝ) (i j : ℕ) (hi : i < data.nrow) (hj : j < data.ncol) :
    (bayes_estimator_class data window variance)[i * data.ncol + j]? =
      some (bayes_estimator_pixel (data.get i j) (build_neigh data window i j)
        variance) := by
  unfold bayes_estimator_class
  exact flat_getElem _ _ _ _ _ hi hj

/-- Unfolding of the estimator on a non-missing centre value. -/
theorem bayes_estimator_pixel_val (pv : ℝ) (neigh : List ℝ) (variance : ℝ) :
    bayes_estimator_pixel (D.val pv) neigh variance =
      dAdd
        (dMul (dDiv (dVar (neigh.map fun n => Real.log (n / (10000 - n))))
            (dAdd (D.val variance)
              (dVar (neigh.map fun n => Real.log (n / (10000 - n))))))
          (D.val (Real.log (pv / (10000 - pv)))))
        (dMul (dDiv (D.val variance)
            (dAdd (D.val variance)
              (dVar (neigh.map fun n => Real.log (n / (10000 - n))))))
          (dMean (neigh.map fun n => Real.log (n / (10000 - n))))) := rfl

/-- Adding NaN on the right gives NaN. -/
theorem dAdd_nan_right (x : D) : dAdd x D.nan = D.nan := by cases x <;> rfl

/-- Multiplying by NaN on the right gives NaN. -/
theorem dMul_nan_right (x : D) : dMul x D.nan = D.nan := by cases x <;> rfl

/-- Multiplying by NaN on the left gives NaN. -/
theorem dMul_nan_left (x : D) : dMul D.nan x = D.nan := rfl

/-- Dividing by NaN gives NaN. -/
theorem dDiv_nan_right (x : D) : dDiv x D.nan = D.nan := by cases x <;> rfl

/-- Division of finite doubles with a nonzero denominator. -/
theorem dDiv_val (a b : ℝ) (h : b ≠ 0) :
    dDiv (D.val a) (D.val b) = D.val (a / b) := by simp [dDiv, h]

/-- Addition of finite doubles. -/
theorem dAdd_val (a b : ℝ) : dAdd (D.val a) (D.val b) = D.val (a + b) := rfl

/-- Multiplication of finite doubles. -/
theorem dMul_val (a b : ℝ) : dMul (D.val a) (D.val b) = D.val (a * b) := rfl

/-- On a sequence of length at least two, the double-arithmetic variance of
the code is the (finite) unbiased sample variance of the spec. -/
theorem dVar_eq (xs : List ℝ) (h : 2 ≤ xs.length) :
    dVar xs = D.val (spec_sample_var xs) := by
  have h2 : (2 : ℝ) ≤ (xs.length : ℝ) := by exact_mod_cast h
  have hne : ((xs.length : ℝ) - 1) ≠ 0 :=
    ne_of_gt (by linarith : (0 : ℝ) < (xs.length : ℝ) - 1)
  unfold dVar spec_sample_var spec_mean
  rw [dDiv_val _ _ hne]

/-- On a nonempty sequence, the double-arithmetic mean of the code is the
(finite) mean of the spec. -/
theorem dMean_eq (xs : List ℝ) (h : xs ≠ []) :
    dMean xs = D.val (spec_mean xs) := by
  have hne : ((xs.length : ℝ)) ≠ 0 :=
    Nat.cast_ne_zero.mpr (List.length_pos.mpr h).ne'
  unfold dMean spec_mean
  rw [dDiv_val _ _ hne]

/-- Adding NaN on the left gives NaN. -/
theorem dAdd_nan_left (x : D) : dAdd D.nan x = D.nan := rfl

/-- Dividing NaN gives NaN. -/
theorem dDiv_nan_left (x : D) : dDiv D.nan x = D.nan := rfl

/-- The double-arithmetic mean is invariant under permutation. -/
theorem dMean_perm {xs ys : List ℝ} (h : xs.Perm ys) : dMean xs = dMean ys := by
  unfold dMean
  rw [h.sum_eq, h.length_eq]

/-- The double-arithmetic variance is invariant under permutation. -/
theorem dVar_perm {xs ys : List ℝ} (h : xs.Perm ys) : dVar xs = dVar ys := by
  unfold dVar
  rw [h.sum_eq, h.length_eq,
    (h.map fun x => (x - ys.sum / (ys.length : ℝ)) ^ 2).sum_eq]

/-- C1: for a non-missing centre value and at least two gathered
neighbours, the estimator output is exactly `w1 * x + w2 * mean(L)` with
`L` the element-wise logit of the neighbours, `x` the logit of the centre,
`v` the unbiased sample variance of `L`, `w1 = v / (variance + v)` and
`w2 = variance / (variance + v)` (stated where the blend weights are
well defined, i.e. `variance + v ≠ 0`). -/
theorem C1_estimator_blend_formula (pv variance : ℝ) (neigh : List ℝ)
    (hlen : 2 ≤ neigh.length)
    (hw : variance + spec_sample_var (neigh.map spec_logit) ≠ 0) :
    bayes_estimator_pixel (D.val pv) neigh variance =
      D.val (spec_sample_var (neigh.map spec_logit) /
            (variance + spec_sample_var (neigh.map spec_logit)) *
            spec_logit pv +
          variance / (variance + spec_sample_var (neigh.map spec_logit)) *
            spec_mean (neigh.map spec_logit)) := by
  have hmap : (neigh.map fun n => Real.log (n / (10000 - n))) =
      neigh.map spec_logit := rfl
  have hlen' : 2 ≤ (neigh.map spec_logit).length := by simpa using hlen
  have hne : neigh.map spec_logit ≠ [] := by
    intro hnil
    rw [hnil] at hlen'
    simp at hlen'
  rw [bayes_estimator_pixel_val, hmap, dVar_eq _ hlen', dMean_eq _ hne,
    dAdd_val, dDiv_val _ _ hw, dDiv_val _ _ hw, dMul_val, dMul_val, dAdd_val]
  rfl

/-- C1 witness: the blend formula instantiated at centre `5000`,
neighbours `[2500, 5000]` and variance `1`. -/
theorem C1_witness :
    2 ≤ ([2500, 5000] : List ℝ).length ∧
      (1 + spec_sample_var (([2500, 5000] : List ℝ).map spec_logit) ≠ 0 →
        bayes_estimator_pixel (D.val 5000) [2500, 5000] 1 =
          D.val (spec_sample_var (([2500, 5000] : List ℝ).map spec_logit) /
                (1 + spec_sample_var (([2500, 5000] : List ℝ).map spec_logit)) *
                spec_logit 5000 +
              1 / (1 + spec_sample_var (([2500, 5000] : List ℝ).map spec_logit)) *
                spec_mean (([2500, 5000] : List ℝ).map spec_logit))) :=
  ⟨by decide, fun hw => C1_estimator_blend_formula 5000 1 [2500, 5000]
    (by decide) hw⟩

/-- C3: a missing-sentinel input cell yields a missing-sentinel output and
the estimator short-circuits, for every neighbour list and variance. -/
theorem C3_missing_sentinel_short_circuit (data : Mat D) (window : Mat ℤ)
    (variance : ℝ) (i j : ℕ) (hi : i < data.nrow) (hj : j < data.ncol)
    (hmiss : data.get i j = D.nan) :
    (bayes_estimator_class data window variance)[i * data.ncol + j]? =
        some D.nan ∧
      ∀ (neigh : List ℝ) (variance2 : ℝ),
        bayes_estimator_pixel D.nan neigh variance2 = D.nan := by
  refine ⟨?_, fun _ _ => rfl⟩
  rw [bayes_estimator_class_getElem data window variance i j hi hj, hmiss]
  rfl

/-- C3 witness: the 1-by-1 missing raster. -/
theorem C3_witness :
    (bayes_estimator_class nanRaster oneWindow 1)[0 * nanRaster.ncol + 0]? =
        some D.nan ∧
      ∀ (neigh : List ℝ) (variance2 : ℝ),
        bayes_estimator_pixel D.nan neigh variance2 = D.nan :=
  C3_missing_sentinel_short_circuit nanRaster oneWindow 1 0 0
    (by decide) (by decide) rfl

/-- C4: a non-missing centre whose gathered neighbourhood has zero or one
element produces NaN (degenerate mean or sample-variance denominator), for
every centre value and variance, without any special-casing. -/
theorem C4_degenerate_neighbourhood_nan (pv variance : ℝ) (neigh : List ℝ)
    (hlen : neigh.length ≤ 1) :
    bayes_estimator_pixel (D.val pv) neigh variance = D.nan := by
  rw [bayes_estimator_pixel_val]
  rcases neigh with _ | ⟨a, _ | ⟨b, rest⟩⟩
  · have hm : dMean (([] : List ℝ).map fun n => Real.log (n / (10000 - n))) =
        D.nan := by simp [dMean, dDiv]
    rw [hm, dMul_nan_right, dAdd_nan_right]
  · have hv : dVar (([a] : List ℝ).map fun n => Real.log (n / (10000 - n))) =
        D.nan := by simp [dVar, dDiv]
    rw [hv, dAdd_nan_right, dDiv_nan_right, dDiv_nan_right, dMul_nan_left,
      dMul_nan_left, dAdd_nan_left]
  · exact absurd hlen (by simp)

/-- C4 witness: empty neighbourhood at centre `5000`, variance `1`. -/
theorem C4_witness :
    ([] : List ℝ).length ≤ 1 ∧
      bayes_estimator_pixel (D.val 5000) [] 1 = D.nan :=
  ⟨by decide, C4_degenerate_neighbourhood_nan 5000 1 [] (by decide)⟩

/-- C7: the estimator only uses the mean and variance of the neighbour
list, so permuting the gathered neighbours never changes the result. -/
theorem C7_estimator_permutation_invariant (p : D) (variance : ℝ)
    (neigh neigh2 : List ℝ) (h : neigh.Perm neigh2) :
    bayes_estimator_pixel p neigh variance =
      bayes_estimator_pixel p neigh2 variance := by
  cases p with
  | nan => rfl
  | val pv =>
      have hmap := h.map fun n => Real.log (n / (10000 - n))
      rw [bayes_estimator_pixel_val, bayes_estimator_pixel_val,
        dVar_perm hmap, dMean_perm hmap]

/-- C7 witness: swapping a two-element neighbour list. -/
theorem C7_witness :
    bayes_estimator_pixel (D.val 5000) [1, 2] 1 =
      bayes_estimator_pixel (D.val 5000) [2, 1] 1 :=
  C7_estimator_permutation_invariant (D.val 5000) 1 [1, 2] [2, 1]
    (List.Perm.swap 2 1 [])

/-- C2: the gathered neighbour sequence contains the weighted value of a
window position exactly when that position maps to an in-bounds raster
coordinate, the window weight is strictly positive and the raster value
there is not the missing sentinel; a zero or negative weight never
contributes. -/
theorem C2_gather_membership (data : Mat D) (window : Mat ℤ) (i j : ℕ)
    (x : ℝ) :
    x ∈ build_neigh data window i j ↔
      ∃ k, k < window.nrow ∧ ∃ l, l < window.ncol ∧
        ((0:ℤ) ≤ (i:ℤ) + (k:ℤ) - ((window.nrow / 2 : ℕ):ℤ) ∧
         (0:ℤ) ≤ (j:ℤ) + (l:ℤ) - ((window.ncol / 2 : ℕ):ℤ) ∧
         (i:ℤ) + (k:ℤ) - ((window.nrow / 2 : ℕ):ℤ) < (data.nrow:ℤ) ∧
         (j:ℤ) + (l:ℤ) - ((window.ncol / 2 : ℕ):ℤ) < (data.ncol:ℤ) ∧
         0 < window.get k l) ∧
        ∃ r : ℝ,
          data.get ((i:ℤ) + (k:ℤ) - ((window.nrow / 2 : ℕ):ℤ)).toNat
                   ((j:ℤ) + (l:ℤ) - ((window.ncol / 2 : ℕ):ℤ)).toNat = D.val r ∧
          x = r * (window.get k l : ℝ) :=
  mem_build_neigh data window i j x

/-- C10: with a positive centre weight, every in-bounds non-missing cell
gathers its own weighted value: the cell is its own neighbour. -/
theorem C10_cell_is_own_neighbour (data : Mat D) (window : Mat ℤ) (i j : ℕ)
    (hodd_r : Odd window.nrow) (hodd_c : Odd window.ncol)
    (hcw : 0 < window.get (window.nrow / 2) (window.ncol / 2))
    (hi : i < data.nrow) (hj : j < data.ncol) (r : ℝ)
    (hval : data.get i j = D.val r) :
    r * (window.get (window.nrow / 2) (window.ncol / 2) : ℝ) ∈
      build_neigh data window i j := by
  obtain ⟨mr, hmr⟩ := hodd_r
  obtain ⟨mc, hmc⟩ := hodd_c
  rw [mem_build_neigh]
  refine ⟨window.nrow / 2, by omega, window.ncol / 2, by omega,
    ⟨by omega, by omega, by omega, by omega, hcw⟩, r, ?_, rfl⟩
  rw [show ((i:ℤ) + ((window.nrow / 2 : ℕ):ℤ) -
      ((window.nrow / 2 : ℕ):ℤ)).toNat = i by omega,
    show ((j:ℤ) + ((window.ncol / 2 : ℕ):ℤ) -
      ((window.ncol / 2 : ℕ):ℤ)).toNat = j by omega]
  exact hval

/-- C10 witness: a 1-by-1 window with centre weight one on a 1-by-1 raster
holding 5000. -/
theorem C10_witness :
    (5000 : ℝ) *
        ((oneWindow.get (oneWindow.nrow / 2) (oneWindow.ncol / 2) : ℤ) : ℝ) ∈
      build_neigh constRaster oneWindow 0 0 :=
  C10_cell_is_own_neighbour constRaster oneWindow 0 0 ⟨0, rfl⟩ ⟨0, rfl⟩
    (by decide) (by decide) (by decide) 5000 rfl

/-- Congruence for flattening over `List.range`: functions agreeing below
`n` flatten to the same list. -/
theorem range_flatMap_congr {α : Type} (n : ℕ) (f g : ℕ → List α)
    (h : ∀ k, k < n → f k = g k) :
    (List.range n).flatMap f = (List.range n).flatMap g := by
  induction n with
  | zero => rfl
  | succ n ih =>
    rw [List.range_succ, List.flatMap_append, List.flatMap_append,
      ih fun k hk => h k (by omega)]
    simp [h n (by omega)]

/-- Congruence for `filterMap` over `List.range`. -/
theorem range_filterMap_congr {α : Type} (n : ℕ) (f g : ℕ → Option α)
    (h : ∀ k, k < n → f k = g k) :
    (List.range n).filterMap f = (List.range n).filterMap g := by
  induction n with
  | zero => rfl
  | succ n ih =>
    rw [List.range_succ, List.filterMap_append, List.filterMap_append,
      ih fun k hk => h k (by omega)]
    simp only [List.filterMap_cons, List.filterMap_nil, h n (by omega)]

/-- `build_neigh` reads nothing but the declared inputs, and of the raster
and window only their in-bounds entries. -/
theorem build_neigh_congr (d1 d2 : Mat D) (w1 w2 : Mat ℤ)
    (hdn : d1.nrow = d2.nrow) (hdc : d1.ncol = d2.ncol)
    (hd : ∀ a b, a < d1.nrow → b < d1.ncol → d1.get a b = d2.get a b)
    (hwn : w1.nrow = w2.nrow) (hwc : w1.ncol = w2.ncol)
    (hw : ∀ k l, k < w1.nrow → l < w1.ncol → w1.get k l = w2.get k l)
    (i j : ℕ) :
    build_neigh d1 w1 i j = build_neigh d2 w2 i j := by
  unfold build_neigh
  rw [← hdn, ← hdc, ← hwn, ← hwc]
  refine range_flatMap_congr _ _ _ fun k hk => ?_
  refine range_filterMap_congr _ _ _ fun l hl => ?_
  rw [← hw k l hk hl]
  by_cases hc : (0:ℤ) ≤ (i:ℤ) + (k:ℤ) - ((w1.nrow / 2 : ℕ):ℤ) ∧
      (0:ℤ) ≤ (j:ℤ) + (l:ℤ) - ((w1.ncol / 2 : ℕ):ℤ) ∧
      (i:ℤ) + (k:ℤ) - ((w1.nrow / 2 : ℕ):ℤ) < (d1.nrow:ℤ) ∧
      (j:ℤ) + (l:ℤ) - ((w1.ncol / 2 : ℕ):ℤ) < (d1.ncol:ℤ) ∧
      0 < w1.get k l
  · rw [if_pos hc, if_pos hc]
    obtain ⟨h1, h2, h3, h4, _⟩ := hc
    rw [hd _ _ (by omega) (by omega)]
  · rw [if_neg hc, if_neg hc]

/-- C9: the pass is a pure function of the observable inputs — two runs on
rasters and windows with the same dimensions and the same in-bounds
entries produce identical output sequences; nothing else (in particular no
hidden state and no out-of-bounds junk) influences the result. -/
theorem C9_deterministic_pure (d1 d2 : Mat D) (w1 w2 : Mat ℤ) (variance : ℝ)
    (hdn : d1.nrow = d2.nrow) (hdc : d1.ncol = d2.ncol)
    (hd : ∀ a b, a < d1.nrow → b < d1.ncol → d1.get a b = d2.get a b)
    (hwn : w1.nrow = w2.nrow) (hwc : w1.ncol = w2.ncol)
    (hw : ∀ k l, k < w1.nrow → l < w1.ncol → w1.get k l = w2.get k l) :
    bayes_estimator_class d1 w1 variance =
      bayes_estimator_class d2 w2 variance := by
  unfold bayes_estimator_class
  rw [← hdn, ← hdc]
  refine range_flatMap_congr _ _ _ fun i hi => ?_
  refine List.map_congr_left fun j hj => ?_
  rw [List.mem_range] at hj
  rw [build_neigh_congr d1 d2 w1 w2 hdn hdc hd hwn hwc hw i j,
    hd i j hi hj]

/-- C9 witness: two observably identical inputs (differing only in
out-of-bounds junk) give identical outputs. -/
theorem C9_witness :
    bayes_estimator_class constRaster oneWindow 1 =
      bayes_estimator_class constRasterJunk oneWindow 1 :=
  C9_deterministic_pure constRaster constRasterJunk oneWindow oneWindow 1
    rfl rfl
    (fun a b ha hb => by
      have ha0 : a = 0 := by
        have : a < 1 := ha
        omega
      have hb0 : b = 0 := by
        have : b < 1 := hb
        omega
      subst ha0; subst hb0; rfl)
    rfl rfl (fun _ _ _ _ => rfl)

/-- C5: the pass returns a flat row-major sequence of length
`nrow * ncol` whose entry at flat index `i * ncol + j` is the estimate of
cell `(i, j)` on its gathered neighbourhood. -/
theorem C5_row_major_pass (data : Mat D) (window : Mat ℤ) (variance : ℝ) :
    (bayes_estimator_class data window variance).length =
        data.nrow * data.ncol ∧
      ∀ i j, i < data.nrow → j < data.ncol →
        (bayes_estimator_class data window variance)[i * data.ncol + j]? =
          some (bayes_estimator_pixel (data.get i j)
            (build_neigh data window i j) variance) :=
  ⟨bayes_estimator_class_length data window variance,
   fun i j hi hj =>
     bayes_estimator_class_getElem data window variance i j hi hj⟩

/-- C5 witness: the 1-by-1 constant raster. -/
theorem C5_witness :
    (bayes_estimator_class constRaster oneWindow 1).length =
        constRaster.nrow * constRaster.ncol ∧
      (bayes_estimator_class constRaster oneWindow 1)[0 * constRaster.ncol + 0]? =
        some (bayes_estimator_pixel (constRaster.get 0 0)
          (build_neigh constRaster oneWindow 0 0) 1) :=
  ⟨(C5_row_major_pass constRaster oneWindow 1).1,
   (C5_row_major_pass constRaster oneWindow 1).2 0 0 (by decide) (by decide)⟩

/-- On a neighbourhood all of whose gathered values equal a constant `c`
(at least two of them) and a nonzero variance parameter, the estimator
returns the logit of `c`: the neighbourhood variance is zero, so the
centre weight `w1` vanishes and `w2 = 1`. -/
theorem pixel_const (c pv variance : ℝ) (neigh : List ℝ)
    (hc : ∀ x ∈ neigh, x = c) (hlen : 2 ≤ neigh.length) (hv : variance ≠ 0) :
    bayes_estimator_pixel (D.val pv) neigh variance =
      D.val (Real.log (c / (10000 - c))) := by
  have hlennz : ((neigh.length : ℝ)) ≠ 0 := by
    have : (2 : ℝ) ≤ (neigh.length : ℝ) := by exact_mod_cast hlen
    linarith
  have hlog : neigh.map (fun n => Real.log (n / (10000 - n))) =
      List.replicate neigh.length (Real.log (c / (10000 - c))) := by
    have h1 : ∀ b ∈ neigh.map (fun n => Real.log (n / (10000 - n))),
        b = Real.log (c / (10000 - c)) := by
      rintro b hb
      obtain ⟨x, hx, rfl⟩ := List.mem_map.mp hb
      rw [hc x hx]
    rw [List.eq_replicate_length.mpr h1, List.length_map]
  have hrep : (List.replicate neigh.length
      (Real.log (c / (10000 - c)))).sum =
      (neigh.length : ℝ) * Real.log (c / (10000 - c)) := by
    rw [List.sum_replicate, nsmul_eq_mul]
  have hmean : dMean (List.replicate neigh.length
      (Real.log (c / (10000 - c)))) = D.val (Real.log (c / (10000 - c))) := by
    unfold dMean
    rw [hrep, List.length_replicate,
      dDiv_val _ _ hlennz, mul_div_cancel_left₀ _ hlennz]
  have hvar : dVar (List.replicate neigh.length
      (Real.log (c / (10000 - c)))) = D.val 0 := by
    have hne1 : ((neigh.length : ℝ) - 1) ≠ 0 := by
      have : (2 : ℝ) ≤ (neigh.length : ℝ) := by exact_mod_cast hlen
      intro h0
      nlinarith
    unfold dVar
    rw [List.length_replicate, hrep, mul_div_cancel_left₀ _ hlennz,
      List.map_replicate, dDiv_val _ _ hne1]
    simp
  rw [bayes_estimator_pixel_val, hlog, hvar, hmean, dAdd_val, add_zero,
    dDiv_val _ _ hv, dDiv_val _ _ hv, zero_div, div_self hv, dMul_val,
    dMul_val, zero_mul, one_mul, dAdd_val, zero_add]

/-- Every value gathered on the scenario raster equals 5000: the sentinel
cell is dropped by the non-missing check and all weights are one. -/
theorem raster3_neigh_const (i j : ℕ) :
    ∀ x ∈ build_neigh raster3 fullWindow3 i j, x = 5000 := by
  intro x hx
  rw [mem_build_neigh] at hx
  obtain ⟨k, hk, l, hl, hc, r, hget, rfl⟩ := hx
  have hw : fullWindow3.get k l = 1 := rfl
  have h5 : r = 5000 := by
    have h2 : (if ((i:ℤ) + (k:ℤ) - ((fullWindow3.nrow / 2 : ℕ):ℤ)).toNat = 1 ∧
        ((j:ℤ) + (l:ℤ) - ((fullWindow3.ncol / 2 : ℕ):ℤ)).toNat = 1 then D.nan
        else D.val 5000) = D.val r := hget
    split at h2
    · exact absurd h2 (by simp)
    · injection h2 with h3
      exact h3.symm
  rw [h5, hw]
  norm_num

/-- Every non-sentinel cell of the scenario raster gathers at least two
neighbours under the full 3-by-3 window. -/
theorem raster3_neigh_len (i j : ℕ) (hi : i < 3) (hj : j < 3) :
    2 ≤ (build_neigh raster3 fullWindow3 i j).length := by
  interval_cases i <;> interval_cases j <;>
    norm_num [build_neigh, raster3, fullWindow3, List.range_succ,
      List.filterMap_cons, List.filterMap_nil,
      show ((0:ℤ).toNat = 0) from rfl, show ((1:ℤ).toNat = 1) from rfl,
      show ((2:ℤ).toNat = 2) from rfl, show ((3:ℤ).toNat = 3) from rfl]

/-- C6: on the 3-by-3 all-5000 raster with the missing sentinel at (1,1)
and the full all-ones window, any positive variance gives a missing output
exactly at (1,1) and a finite value everywhere else. -/
theorem C6_missing_centre_scenario (variance : ℝ) (hv : 0 < variance) :
    (bayes_estimator_class raster3 fullWindow3 variance)[1 * raster3.ncol + 1]? =
        some D.nan ∧
      ∀ i j, i < 3 → j < 3 → ¬(i = 1 ∧ j = 1) →
        ∃ r : ℝ,
          (bayes_estimator_class raster3 fullWindow3 variance)[i * raster3.ncol + j]? =
            some (D.val r) := by
  constructor
  · rw [bayes_estimator_class_getElem raster3 fullWindow3 variance 1 1
      (by decide) (by decide)]
    rfl
  · intro i j hi hj hne
    refine ⟨Real.log (5000 / (10000 - 5000)), ?_⟩
    rw [bayes_estimator_class_getElem raster3 fullWindow3 variance i j hi hj]
    have hget : raster3.get i j = D.val 5000 := by
      show (if i = 1 ∧ j = 1 then D.nan else D.val 5000) = D.val 5000
      rw [if_neg hne]
    rw [hget, pixel_const 5000 5000 variance _ (raster3_neigh_const i j)
      (raster3_neigh_len i j hi hj) (ne_of_gt hv)]

/-- C6 witness: the scenario at variance one. -/
theorem C6_witness :
    (bayes_estimator_class raster3 fullWindow3 1)[1 * raster3.ncol + 1]? =
        some D.nan ∧
      ∀ i j, i < 3 → j < 3 → ¬(i = 1 ∧ j = 1) →
        ∃ r : ℝ,
          (bayes_estimator_class raster3 fullWindow3 1)[i * raster3.ncol + j]? =
            some (D.val r) :=
  C6_missing_centre_scenario 1 (by norm_num)

/-- C8: the pass is not invariant under uniform scaling of the window
weights: gathered neighbours are the raster values literally multiplied by
the weights, and the logit transform is nonlinear, so scaling every weight
by an integer `c > 1` can change the output. -/
theorem C8_not_weight_scale_invariant :
    ∃ (data : Mat D) (window : Mat ℤ) (variance : ℝ) (c : ℤ), 1 < c ∧
      bayes_estimator_class data (scaleWindow c window) variance ≠
        bayes_estimator_class data window variance := by
  refine ⟨raster2, colWindow3, 1, 2, by norm_num, fun hEq => ?_⟩
  have hb1 : build_neigh raster2 colWindow3 0 0 = [2500, 2500] := by
    norm_num [build_neigh, raster2, colWindow3, List.range_succ,
      List.filterMap_cons, List.filterMap_nil,
      show ((0:ℤ).toNat = 0) from rfl, show ((1:ℤ).toNat = 1) from rfl]
  have hb2 : build_neigh raster2 (scaleWindow 2 colWindow3) 0 0 =
      [5000, 5000] := by
    norm_num [build_neigh, raster2, colWindow3, scaleWindow, List.range_succ,
      List.filterMap_cons, List.filterMap_nil,
      show ((0:ℤ).toNat = 0) from rfl, show ((1:ℤ).toNat = 1) from rfl]
  have hmem1 : ∀ x ∈ ([2500, 2500] : List ℝ), x = 2500 := by
    intro x hx
    simp only [List.mem_cons, List.not_mem_nil, or_false] at hx
    rcases hx with h | h <;> exact h
  have hmem2 : ∀ x ∈ ([5000, 5000] : List ℝ), x = 5000 := by
    intro x hx
    simp only [List.mem_cons, List.not_mem_nil, or_false] at hx
    rcases hx with h | h <;> exact h
  have hg1 := bayes_estimator_class_getElem raster2 colWindow3 1 0 0
    (by decide) (by decide)
  have hg2 := bayes_estimator_class_getElem raster2 (scaleWindow 2 colWindow3)
    1 0 0 (by decide) (by decide)
  rw [hb1, show raster2.get 0 0 = D.val 2500 from rfl,
    pixel_const 2500 2500 1 _ hmem1 (by norm_num) one_ne_zero] at hg1
  rw [hb2, show raster2.get 0 0 = D.val 2500 from rfl,
    pixel_const 5000 2500 1 _ hmem2 (by norm_num) one_ne_zero] at hg2
  rw [hEq, hg1] at hg2
  have hvals := D.val.inj (Option.some.inj hg2)
  rw [show ((5000:ℝ) / (10000 - 5000)) = 1 by norm_num, Real.log_one]
    at hvals
  have hneg : Real.log ((2500:ℝ) / (10000 - 2500)) < 0 := by
    rw [show ((2500:ℝ) / (10000 - 2500)) = 1/3 by norm_num]
    exact Real.log_neg (by norm_num) (by norm_num)
  exact absurd hvals (ne_of_lt hneg)

end Sits
